import Mathlib

/-!
Shallow embedding of the syscall and task-lifecycle core of the repository
(src/core/src/task.rs, src/api/src/imp/fs/ctl.rs, src/src/syscall.rs),
together with theorems settling the specification claims.

Machine integers are modelled as `Nat`/`Int`; `usize` is 64 bits wide on all
target architectures (x86_64, riscv64, aarch64, loongarch64), so bitwise
complement on `usize` is XOR with `2 ^ 64 - 1`.
-/

/-- Width modulus of `usize` on the 64-bit targets. -/
def U64 : Nat := 2 ^ 64

/-- All-ones `usize` value, used for bitwise complement `!x = UMAX ^^^ x`. -/
def UMAX : Nat := 2 ^ 64 - 1

/-- Kernel-internal error kind (axerrno::AxError), restricted to the
constructors the embedded code paths produce. -/
inductive AxError where
  | Unsupported
  | NotFound
  | IsADirectory
  | BadState
deriving DecidableEq, Repr

/-- Linux errno kind (axerrno::LinuxError), restricted to the constructors the
embedded code paths produce. -/
inductive LinuxError where
  | EINVAL
  | EFAULT
  | ENOENT
  | EISDIR
  | EBADF
  | ENOTSUP
deriving DecidableEq, Repr

/-- Conversion performed by the `err.into()` calls at the LinuxResult
boundary (the axerrno mapping from AxError to LinuxError, for the kinds used here). -/
def axToLinux : AxError → LinuxError
  | .Unsupported => .ENOTSUP
  | .NotFound => .ENOENT
  | .IsADirectory => .EISDIR
  | .BadState => .EINVAL

/-- Fuel-bounded trailing-zeros scan; the fuel bounds the bit width. -/
def ctzFuel : Nat → Nat → Nat
  | 0, _ => 0
  | fuel + 1, n =>
    if n = 0 then 0
    else if n % 2 = 1 then 0
    else ctzFuel fuel (n / 2) + 1

/-- Number of trailing zero bits of a 64-bit word; mirrors
`usize::trailing_zeros` on the values where the source calls it (the source
only calls it on a nonzero 64-bit value, whose lowest set bit has index
below 64, so fuel 64 is exact). -/
def ctz (n : Nat) : Nat := ctzFuel 64 n

/-- SigSet from src/core/src/task.rs: a 128-bit signal set stored as two
`usize` words `bits[0]`, `bits[1]`. -/
structure SigSet where
  bits0 : Nat
  bits1 : Nat
deriving DecidableEq, Repr

namespace SigSet

/-- SigSet::add from src/core/src/task.rs lines 52-62. Returns the updated
set together with the returned `bool` (Rust mutates `self` in place). -/
def add (s : SigSet) (signal : Nat) : SigSet × Bool :=
  if ¬ (1 ≤ signal ∧ signal < 32) then (s, false)
  else
    let bit := 1 <<< (signal - 1)
    if s.bits0 &&& bit ≠ 0 then (s, false)
    else ({ s with bits0 := s.bits0 ||| bit }, true)

/-- SigSet::remove from src/core/src/task.rs lines 63-73. The Rust
`self.bits[0] &= !bit` complements within the 64-bit word. -/
def remove (s : SigSet) (signal : Nat) : SigSet × Bool :=
  if ¬ (1 ≤ signal ∧ signal < 32) then (s, false)
  else
    let bit := 1 <<< (signal - 1)
    if s.bits0 &&& bit = 0 then (s, false)
    else ({ s with bits0 := s.bits0 &&& (UMAX ^^^ bit) }, true)

/-- SigSet::has from src/core/src/task.rs lines 75-77. -/
def has (s : SigSet) (signal : Nat) : Bool :=
  (1 ≤ signal ∧ signal < 32) ∧ s.bits0 &&& (1 <<< (signal - 1)) ≠ 0

/-- SigSet::add_from from src/core/src/task.rs lines 79-84: bitwise OR over
both words. -/
def add_from (s : SigSet) (other : SigSet) : SigSet :=
  { bits0 := s.bits0 ||| other.bits0, bits1 := s.bits1 ||| other.bits1 }

/-- SigSet::remove_from from src/core/src/task.rs lines 85-90: bitwise
AND-NOT over both words. -/
def remove_from (s : SigSet) (other : SigSet) : SigSet :=
  { bits0 := s.bits0 &&& (UMAX ^^^ other.bits0),
    bits1 := s.bits1 &&& (UMAX ^^^ other.bits1) }

/-- SigSet::dequeue from src/core/src/task.rs lines 93-102. Intersects only
the first words, takes the trailing-zeros index, clears that bit of
`bits[0]`, and returns index + 1. -/
def dequeue (s : SigSet) (mask : SigSet) : Option Nat × SigSet :=
  let bits := s.bits0 &&& mask.bits0
  if bits = 0 then (none, s)
  else
    let signal := ctz bits
    (some (signal + 1), { s with bits0 := s.bits0 &&& (UMAX ^^^ (1 <<< signal)) })

end SigSet

example : (SigSet.dequeue ⟨10, 0⟩ ⟨255, 0⟩).1 = some 2 := by decide
example : (SigSet.dequeue ⟨10, 0⟩ ⟨255, 0⟩).2 = ⟨8, 0⟩ := by decide
example : (SigSet.add ⟨0, 0⟩ 3).1 = ⟨4, 0⟩ := by decide

/-- Resource limit pair (Rlimit from src/core/src/task.rs lines 31-45). -/
structure Rlimit where
  rlim_cur : Nat
  rlim_max : Nat
deriving DecidableEq, Repr

/-- Default Rlimit value: (65535, 65535). -/
def Rlimit.dflt : Rlimit := ⟨65535, 65535⟩

/-- Scheduler task state (axtask::TaskState), read-only for the core. -/
inductive TaskState where
  | Runnable
  | Running
  | Blocked
  | Exited
deriving DecidableEq, Repr

/-- WaitStatus from the ctypes module, as used by wait_pid. -/
inductive WaitStatus where
  | Exited
  | Running
  | NotExist
deriving DecidableEq, Repr

/-- User-space register context snapshot (axhal UspaceContext), reduced to
the registers the embedded code reads or writes: instruction pointer, stack
pointer and the return-value register. -/
structure UCtx where
  ip : Nat
  sp : Nat
  retval : Nat
deriving DecidableEq, Repr

/-- Kernel-side view of a child task handle (AxTaskRef) as wait_pid and
clone_task consume it: its id, scheduler state, exit code, and the value
`join()` would return (`some code` once the task can be joined). -/
structure Child where
  id : Nat
  state : TaskState
  exit_code : Int
  join_result : Option Int
deriving DecidableEq, Repr

/-- TaskExt from src/core/src/task.rs lines 106-149, with the fields the
embedded operations touch. The aspace handle is modelled separately (by its
reference count and mapping set) where an operation needs it. -/
structure TaskExtM where
  proc_id : Nat
  parent_id : Nat
  children : List Child
  clear_child_tid : Nat
  uctx : UCtx
  heap_bottom : Nat
  heap_top : Nat
  rlimit_as : Rlimit
  rlimit_asc : Rlimit
  rlimit_cpu : Rlimit
  rlimit_data : Rlimit
  rlimit_fsize : Rlimit
  rlimit_nofile : Rlimit
  rlimit_stack : Rlimit
  signal_mask : SigSet
deriving DecidableEq, Repr

namespace TaskExt

/-- TaskExt::new from src/core/src/task.rs lines 152-180: parent_id starts
at 1, children empty, heap_top = heap_bottom, default rlimits, empty signal
mask. -/
def new (proc_id : Nat) (uctx : UCtx) (heap_bottom : Nat) : TaskExtM :=
  { proc_id := proc_id
    parent_id := 1
    children := []
    clear_child_tid := 0
    uctx := uctx
    heap_bottom := heap_bottom
    heap_top := heap_bottom
    rlimit_as := .dflt
    rlimit_asc := .dflt
    rlimit_cpu := .dflt
    rlimit_data := .dflt
    rlimit_fsize := .dflt
    rlimit_nofile := .dflt
    rlimit_stack := .dflt
    signal_mask := ⟨0, 0⟩ }

end TaskExt

/-- Observable steps of TaskExt::clone_task in source order
(src/core/src/task.rs lines 182-245). -/
inductive CloneEvent where
  | newTask
  | cloneAspace
  | copyFromKernel
  | readTrapFrame
  | buildUctx
  | buildTaskExt
  | nsInit
  | initTaskExt
  | spawnTask
  | pushChild
deriving DecidableEq, BEq, Repr

/-- Successful result of clone_task: the returned id, the new child
extension record, the updated parent extension record, and the trace of
steps in program order. -/
structure CloneOk where
  childId : Nat
  child : TaskExtM
  parent : TaskExtM
  trace : List CloneEvent
deriving DecidableEq, Repr

namespace TaskExt

/-- TaskExt::clone_task from src/core/src/task.rs lines 182-245. Inputs
beyond the parent record: the parent trap frame read from the kernel stack,
the optional user stack argument, the fresh task id, the outcome of the
address-space clone primitive, whether the ISA advances the instruction
pointer by one instruction (riscv64/loongarch64), and the configured user
heap base. On clone failure the error propagates and no task is spawned.
On success the child extension is built by TaskExt::new (so its parent_id
is the init default 1; clone_task never stores the parent id into it), the
scheduler task is spawned, and only then is the handle pushed onto the
parent children list. -/
def clone_task (parent : TaskExtM) (tf : UCtx) (stack : Option Nat)
    (newId : Nat) (aspaceClone : Except AxError Unit) (skipInsn : Bool)
    (userHeapBase : Nat) : Except AxError CloneOk :=
  match aspaceClone with
  | .error e => .error e
  | .ok _ =>
    let uctx1 : UCtx := match stack with
      | some s => { tf with sp := s }
      | none => tf
    let uctx2 : UCtx := if skipInsn then { uctx1 with ip := uctx1.ip + 4 } else uctx1
    let uctx3 : UCtx := { uctx2 with retval := 0 }
    let childExt := TaskExt.new newId uctx3 userHeapBase
    .ok { childId := newId
          child := childExt
          parent := { parent with
            children := parent.children ++ [⟨newId, .Runnable, 0, none⟩] }
          trace := [.newTask, .cloneAspace, .copyFromKernel, .readTrapFrame,
                    .buildUctx, .buildTaskExt, .nsInit, .initTaskExt,
                    .spawnTask, .pushChild] }

end TaskExt

/-- Trace of a clone_task result (empty when the clone failed before
spawning anything). -/
def cloneTrace (r : Except AxError CloneOk) : List CloneEvent :=
  match r with
  | .ok out => out.trace
  | .error _ => []

deriving instance DecidableEq for Except

/-- Value of the Rust expression `exit_code << 8` at type i32: the operand
is truncated to 32 bits, shifted with the high bits discarded, and read back
as a signed 32-bit value. For 0 ≤ k < 2^23 this is exactly k * 256. -/
def i32Shl8 (k : Int) : Int :=
  let u : Nat := (k % ((2 : Int) ^ 32)).toNat
  let v : Nat := (u <<< 8) % 2 ^ 32
  if v < 2 ^ 31 then (v : Int) else (v : Int) - 2 ^ 32

example : i32Shl8 7 = 1792 := by decide

/-- Accumulator state of the scan loop inside wait_pid: the wait status, the
index of the satisfying child, the id to return, and the value written
through the exit-code pointer so far (none while nothing was written). -/
structure WaitAcc where
  status : WaitStatus
  exitIdx : Nat
  ansId : Nat
  written : Option Int
deriving DecidableEq, Repr

/-- The `for (index, child) in children.iter().enumerate()` loop of wait_pid
(src/core/src/task.rs lines 460-504). For pid ≤ 0 the status is first set to
Running, then upgraded to Exited (recording index, id and status write) on
the first child in Exited state. For pid > 0 the loop breaks at the matching
child, joining it. The status write is skipped when the pointer is null. -/
def waitLoop (pid : Int) (ptrNull : Bool) : List Child → Nat → WaitAcc → WaitAcc
  | [], _, acc => acc
  | c :: rest, idx, acc =>
    if pid ≤ 0 then
      if c.state = .Exited then
        { status := .Exited, exitIdx := idx, ansId := c.id,
          written := if ptrNull then acc.written else some (i32Shl8 c.exit_code) }
      else
        waitLoop pid ptrNull rest (idx + 1) { acc with status := .Running }
    else if (c.id : Int) = pid then
      match c.join_result with
      | some code =>
        { status := .Exited, exitIdx := idx, ansId := c.id,
          written := if ptrNull then acc.written else some (i32Shl8 code) }
      | none => { acc with status := .Running }
    else
      waitLoop pid ptrNull rest (idx + 1) acc

/-- Result of wait_pid: the returned value, the children list after any
reaping, the value written through the exit-code pointer, and whether the
call yielded once. -/
structure WaitOut where
  result : Except WaitStatus Nat
  children : List Child
  written : Option Int
  yielded : Bool
deriving DecidableEq, Repr

/-- wait_pid from src/core/src/task.rs lines 454-515, with the null-ness of
the exit-code pointer passed explicitly and the current task represented by
its children list. On Exited the satisfying child is removed by index
(Vec::remove); on Running the task yields once; otherwise the status
(NotExist) is returned as the error. -/
def wait_pid (pid : Int) (ptrNull : Bool) (children : List Child) : WaitOut :=
  let acc := waitLoop pid ptrNull children 0 ⟨.NotExist, 0, 0, none⟩
  if acc.status = .Exited then
    { result := .ok acc.ansId, children := children.eraseIdx acc.exitIdx,
      written := acc.written, yielded := false }
  else
    { result := .error acc.status, children := children,
      written := acc.written, yielded := acc.status = .Running }

example :
    wait_pid (-1) false [⟨3, .Exited, 7, some 7⟩] =
      ⟨.ok 3, [], some 1792, false⟩ := by decide
example : wait_pid (-1) false [] = ⟨.error .NotExist, [], none, false⟩ := by decide

/-- Environment of exec: the outcome of AddrSpace::unmap_user_areas and of
mm::load_user_app (entry point and user stack base on success). -/
structure ExecEnv where
  unmap : Except AxError Unit
  load : Except AxError (Nat × Nat)
deriving DecidableEq, Repr

/-- Observable outcome of exec: an error return, or entry into user space
(which does not return in the source). -/
inductive ExecResult where
  | fail (e : AxError)
  | enterUspace (uctx : UCtx)
deriving DecidableEq, Repr

/-- Task-visible state that exec can read or change: the aspace user
mappings (abstract), the task name, and the extension record. -/
structure ExecSt where
  mappings : List (Nat × Nat)
  name : String
  ext : TaskExtM
deriving DecidableEq, Repr

/-- exec from src/core/src/task.rs lines 517-549. First the strong count of
the aspace Arc is checked: if it is not 1 the call returns Unsupported
before touching anything. Then user areas are unmapped, the new image is
loaded (failure maps to NotFound, with the user areas already gone), the
task is renamed, uctx is replaced by a fresh context, and the task enters
user space. -/
def exec (refCount : Nat) (st : ExecSt) (progName : String) (env : ExecEnv) :
    ExecResult × ExecSt :=
  if refCount ≠ 1 then (.fail .Unsupported, st)
  else
    match env.unmap with
    | .error e => (.fail e, st)
    | .ok _ =>
      match env.load with
      | .error _ => (.fail .NotFound, { st with mappings := [] })
      | .ok (entry, ustackBase) =>
        let newUctx : UCtx := ⟨entry, ustackBase, 0⟩
        (.enterUspace newUctx,
          { mappings := [], name := progName,
            ext := { st.ext with uctx := newUctx } })

/-- The AT_REMOVEDIR flag recognized by sys_unlinkat. -/
def AT_REMOVEDIR : Nat := 0x200

/-- Environment of sys_unlinkat: the outcomes of reading the user path
string, of handle_file_path, of axfs remove_dir, of axfs metadata (whether
the target is a directory), and of HARDLINK_MANAGER remove_link. -/
structure UnlinkEnv where
  getPath : Except LinuxError (List Nat)
  handlePath : Except AxError (List Nat)
  removeDir : Except AxError Unit
  metaIsDir : Except AxError Bool
  removeLink : Option Unit
deriving DecidableEq, Repr

/-- sys_unlinkat from src/api/src/imp/fs/ctl.rs lines 215-245: resolve the
user path, then with AT_REMOVEDIR remove the directory, otherwise refuse
directories with IsADirectory and remove the hard link, mapping a missing
link to NotFound. All AxError values convert into LinuxError at the return
boundary. -/
def sys_unlinkat (env : UnlinkEnv) (flags : Nat) : Except LinuxError Int :=
  match env.getPath with
  | .error e => .error e
  | .ok _ =>
    match env.handlePath with
    | .error e => .error (axToLinux e)
    | .ok _ =>
      if flags = AT_REMOVEDIR then
        match env.removeDir with
        | .error e => .error (axToLinux e)
        | .ok _ => .ok 0
      else
        match env.metaIsDir with
        | .error e => .error (axToLinux e)
        | .ok true => .error (axToLinux .IsADirectory)
        | .ok false =>
          match env.removeLink with
          | none => .error (axToLinux .NotFound)
          | some _ => .ok 0

/-- sys_unlink from src/api/src/imp/fs/ctl.rs lines 256-260: it calls
sys_unlinkat(AT_FDCWD, path, 0) as a bare statement, discarding its result,
and then returns Ok(0) unconditionally. -/
def sys_unlink (env : UnlinkEnv) : Except LinuxError Int :=
  let _ := sys_unlinkat env 0
  .ok 0

/-- Fixed getdents64 entry header size (DirEnt::FIXED_SIZE from
src/api/src/imp/fs/ctl.rs lines 99-100): 8 + 8 + 2 + 1 = 19 bytes. -/
def FIXED_SIZE : Nat := 19

/-- In-memory size of the repr(C) DirEnt struct: fields u64, i64, u16, u8
at offsets 0, 8, 16, 18 give 19 payload bytes, rounded up to the 8-byte
alignment, so size_of::<DirEnt>() = 24. The typed store
`(entry_ptr as *mut DirEnt).write(..)` covers this many bytes. -/
def SIZEOF_DIRENT : Nat := 24

/-- The linux_dirent64 header written for each entry (DirEnt from
src/api/src/imp/fs/ctl.rs lines 64-71, 98-110); d_reclen is a u16, so the
constructor truncates it modulo 2^16. -/
structure DirEnt where
  d_ino : Nat
  d_off : Int
  d_reclen : Nat
  d_type : Nat
deriving DecidableEq, Repr

/-- A directory entry as produced by the axfs read_dir iterator: name bytes
and the entry type byte (after the FileType conversion). -/
structure RawDirEntry where
  name : List Nat
  etype : Nat
deriving DecidableEq, Repr

/-- One entry emitted into the user buffer by sys_getdents64: the byte
offset it was written at, its header, and its name bytes. -/
structure Emitted where
  off : Nat
  ent : DirEnt
  name : List Nat
deriving DecidableEq, Repr

/-- Byte-level writes performed for one emitted entry: the typed header
store covering SIZEOF_DIRENT bytes from the entry offset, the name bytes at
offset + FIXED_SIZE, and the terminating NUL right after the name (source
lines 154-161). The first component of each pair is the byte address
relative to the buffer start; the second is only meaningful for the name
and NUL bytes. -/
def entryWrites (em : Emitted) : List (Nat × Nat) :=
  (List.range SIZEOF_DIRENT).map (fun i => (em.off + i, 0))
    ++ (List.range em.name.length).map (fun i => (em.off + FIXED_SIZE + i, em.name.getD i 0))
    ++ [(em.off + FIXED_SIZE + em.name.length, 0)]

/-- The read-and-fill loop of sys_getdents64 (src/api/src/imp/fs/ctl.rs
lines 124-164). Returns the emitted entries, the final offset (the return
value), and the part of the directory iterator not yet consumed. Each
round first checks `current_offset + FIXED_SIZE + 2 > len`, then consumes
one entry from the iterator, rechecks against the real entry length
(FIXED_SIZE + name.len() + 1), and on success writes the header (with
d_ino = 1 and d_off pointing past the entry), the name, and the NUL. Note
the second break consumes the entry without emitting it, as in the source. -/
def getdentsLoop (len : Nat) : List RawDirEntry → Nat → List Emitted × Nat × List RawDirEntry
  | [], off => ([], off, [])
  | e :: rest, off =>
    if off + FIXED_SIZE + 2 > len then ([], off, e :: rest)
    else
      let entryLength := FIXED_SIZE + e.name.length + 1
      if off + entryLength > len then ([], off, rest)
      else
        let ent : DirEnt :=
          ⟨1, ((off + entryLength : Nat) : Int), entryLength % 2 ^ 16, e.etype⟩
        let out := getdentsLoop len rest (off + entryLength)
        (⟨off, ent, e.name⟩ :: out.1, out.2)

/-- sys_getdents64 from src/api/src/imp/fs/ctl.rs lines 112-166. The user
buffer is materialized first (an invalid pointer fails there, modelled by
`ptrErr`), then a buffer shorter than the fixed header size fails EINVAL,
then the fd is resolved to a directory (failure modelled as EBADF), and
the fill loop runs; the final offset is the return value. -/
def sys_getdents64 (ptrErr : Option LinuxError) (fdOk : Bool) (len : Nat)
    (dir : List RawDirEntry) : Except LinuxError (List Emitted × Nat × List RawDirEntry) :=
  match ptrErr with
  | some e => .error e
  | none =>
    if len < FIXED_SIZE then .error .EINVAL
    else if ¬ fdOk then .error .EBADF
    else
      let out := getdentsLoop len dir 0
      .ok out

/-- Sum of the d_reclen fields of the emitted entries. -/
def sumReclen (ems : List Emitted) : Nat :=
  (ems.map (fun em => em.ent.d_reclen)).sum

/-- The emitted entries are packed consecutively: the first starts at the
given offset and each next entry starts exactly d_reclen bytes later. -/
def packedFrom : Nat → List Emitted → Prop
  | _, [] => True
  | o, em :: rest => em.off = o ∧ packedFrom (o + em.ent.d_reclen) rest

example :
    sys_getdents64 none true 64 [⟨[97], 4⟩, ⟨[98, 98], 8⟩] =
      .ok ([⟨0, ⟨1, 21, 21, 4⟩, [97]⟩, ⟨21, ⟨1, 43, 22, 8⟩, [98, 98]⟩], 43, []) := by
  decide
example : sys_getdents64 none true 10 [⟨[97], 4⟩] = .error .EINVAL := by decide

/-- C1: the claim states that a child created by clone observes parent_id
equal to the id of the cloning parent. Evaluating clone_task for a parent
whose proc_id is 2 shows the child extension keeps parent_id = 1, the init
default written by TaskExt::new; clone_task never stores the parent id
(TaskExt::set_parent is never called), so the claim fails for every parent
whose id is not 1. -/
theorem clone_child_parent_id_stays_init :
    ∃ out,
      TaskExt.clone_task (TaskExt.new 2 ⟨0, 0, 0⟩ 0) ⟨4096, 8192, 57⟩ none 5
          (.ok ()) true 0x1000 = .ok out
        ∧ (TaskExt.new 2 ⟨0, 0, 0⟩ 0).proc_id = 2
        ∧ out.childId = 5
        ∧ out.child.parent_id = 1
        ∧ out.child.parent_id ≠ 2 := by
  refine ⟨_, rfl, rfl, rfl, rfl, by decide⟩

/-- C2 counterexample: the claim states that the child handle is appended
to the parent children list before the scheduler task is spawned. In the
trace of a concrete successful clone_task, the push does not precede the
spawn. -/
theorem clone_push_not_before_spawn :
    ¬ ((cloneTrace (TaskExt.clone_task (TaskExt.new 1 ⟨0, 0, 0⟩ 0) ⟨0, 0, 0⟩
          none 2 (.ok ()) false 0)).indexOf CloneEvent.pushChild
        < (cloneTrace (TaskExt.clone_task (TaskExt.new 1 ⟨0, 0, 0⟩ 0) ⟨0, 0, 0⟩
          none 2 (.ok ()) false 0)).indexOf CloneEvent.spawnTask) := by
  decide

/-- C2 amended: in every successful clone_task, the scheduler task is
spawned (made runnable) first and the child handle is appended to the
parent children list immediately afterwards, so the spawn strictly precedes
the append in program order. -/
theorem clone_spawn_precedes_push (parent : TaskExtM) (tf : UCtx)
    (stack : Option Nat) (newId : Nat) (skipInsn : Bool) (uhb : Nat)
    (out : CloneOk)
    (h : TaskExt.clone_task parent tf stack newId (.ok ()) skipInsn uhb = .ok out) :
    out.trace.indexOf CloneEvent.spawnTask < out.trace.indexOf CloneEvent.pushChild := by
  have ht : out.trace = [.newTask, .cloneAspace, .copyFromKernel, .readTrapFrame,
      .buildUctx, .buildTaskExt, .nsInit, .initTaskExt, .spawnTask, .pushChild] := by
    injection h with h
    subst h
    rfl
  rw [ht]
  decide

/-- C2 amended witness at a concrete clone. -/
theorem clone_spawn_precedes_push_witness :
    ∃ out,
      TaskExt.clone_task (TaskExt.new 1 ⟨0, 0, 0⟩ 0) ⟨0, 0, 0⟩ none 2
          (.ok ()) false 0 = .ok out
        ∧ out.trace.indexOf CloneEvent.spawnTask < out.trace.indexOf CloneEvent.pushChild := by
  refine ⟨_, rfl, ?_⟩
  exact clone_spawn_precedes_push (TaskExt.new 1 ⟨0, 0, 0⟩ 0) ⟨0, 0, 0⟩ none 2 false 0 _ rfl

/-- C3: when the aspace Arc strong count exceeds 1, exec returns
Unsupported (ENOTSUP at the errno boundary) and the whole task state,
including the user mappings, the task name, uctx and every extension field,
is returned unchanged. -/
theorem exec_shared_aspace_unsupported (refCount : Nat) (st : ExecSt)
    (progName : String) (env : ExecEnv) (h : 1 < refCount) :
    exec refCount st progName env = (.fail .Unsupported, st)
      ∧ axToLinux .Unsupported = .ENOTSUP := by
  have hne : refCount ≠ 1 := by omega
  exact ⟨by simp [exec, hne], rfl⟩

/-- C3 witness: exec with strong count 2 on a concrete state. -/
theorem exec_shared_aspace_unsupported_witness :
    (1 < 2)
      ∧ exec 2 ⟨[(0, 4096)], "oldname", TaskExt.new 7 ⟨11, 22, 33⟩ 100⟩ "newprog"
          ⟨.ok (), .ok (1, 2)⟩ =
        (.fail .Unsupported, ⟨[(0, 4096)], "oldname", TaskExt.new 7 ⟨11, 22, 33⟩ 100⟩)
      ∧ axToLinux .Unsupported = .ENOTSUP := by
  refine ⟨by omega, ?_, rfl⟩
  exact (exec_shared_aspace_unsupported 2 ⟨[(0, 4096)], "oldname", TaskExt.new 7 ⟨11, 22, 33⟩ 100⟩
    "newprog" ⟨.ok (), .ok (1, 2)⟩ (by omega)).1

/-- C7: the source of sys_unlink calls sys_unlinkat(AT_FDCWD, path, 0) as a
bare statement and returns Ok(0) unconditionally; on an environment where
path resolution fails, sys_unlinkat returns ENOENT while sys_unlink still
returns 0, so the error is not propagated as the claim requires. -/
theorem unlink_discards_unlinkat_error :
    sys_unlinkat ⟨.ok [47, 120], .error .NotFound, .ok (), .ok false, some ()⟩ 0 =
        .error .ENOENT
      ∧ sys_unlink ⟨.ok [47, 120], .error .NotFound, .ok (), .ok false, some ()⟩ =
        .ok 0 := by
  exact ⟨rfl, rfl⟩

/-- C9: the claim states that sys_getdents64 writes only within the first
len bytes of the buffer. With len = 21 and a single one-byte-name entry the
entry itself (19 + 1 + 1 = 21 bytes) fits exactly and is emitted, but the
typed header store writes size_of::<DirEnt>() = 24 bytes (repr(C) rounds
19 payload bytes up to the 8-byte alignment), so byte address 23 is written
although only addresses below 21 were validated. -/
theorem getdents_header_store_past_len :
    sys_getdents64 none true 21 [⟨[97], 8⟩] =
        .ok ([⟨0, ⟨1, 21, 21, 8⟩, [97]⟩], 21, [])
      ∧ (23, 0) ∈ entryWrites ⟨0, ⟨1, 21, 21, 8⟩, [97]⟩
      ∧ ¬ (23 < 21) := by
  decide

/-- With a null exit-code pointer the scan loop never records a status
write. -/
lemma waitLoop_true_written (pid : Int) :
    ∀ (cs : List Child) (idx : Nat) (acc : WaitAcc),
      (waitLoop pid true cs idx acc).written = acc.written := by
  intro cs
  induction cs with
  | nil => intro idx acc; rfl
  | cons c rest ih =>
    intro idx acc
    simp only [waitLoop]
    split
    · split
      · rfl
      · exact ih (idx + 1) _
    · split
      · split
        · rfl
        · rfl
      · exact ih (idx + 1) _

/-- The status, satisfying index and returned id computed by the scan loop
do not depend on the null-ness of the pointer, nor on the written component
of the accumulator. -/
lemma waitLoop_indep (pid : Int) (b1 b2 : Bool) :
    ∀ (cs : List Child) (idx : Nat) (acc1 acc2 : WaitAcc),
      acc1.status = acc2.status → acc1.exitIdx = acc2.exitIdx →
      acc1.ansId = acc2.ansId →
      (waitLoop pid b1 cs idx acc1).status = (waitLoop pid b2 cs idx acc2).status
        ∧ (waitLoop pid b1 cs idx acc1).exitIdx = (waitLoop pid b2 cs idx acc2).exitIdx
        ∧ (waitLoop pid b1 cs idx acc1).ansId = (waitLoop pid b2 cs idx acc2).ansId := by
  intro cs
  induction cs with
  | nil => intro idx acc1 acc2 h1 h2 h3; exact ⟨h1, h2, h3⟩
  | cons c rest ih =>
    intro idx acc1 acc2 h1 h2 h3
    simp only [waitLoop]
    split
    · split
      · exact ⟨rfl, rfl, rfl⟩
      · exact ih (idx + 1) _ _ rfl h2 h3
    · split
      · split
        · exact ⟨rfl, rfl, rfl⟩
        · exact ⟨rfl, h2, h3⟩
      · exact ih (idx + 1) _ _ h1 h2 h3

/-- C10: wait_pid with a null exit-code pointer writes nothing through the
pointer, yet returns exactly the same result and leaves exactly the same
children list (reaping included) as the call with a non-null pointer. -/
theorem wait_pid_null_ptr_same_reap (pid : Int) (children : List Child) :
    (wait_pid pid true children).written = none
      ∧ (wait_pid pid true children).result = (wait_pid pid false children).result
      ∧ (wait_pid pid true children).children = (wait_pid pid false children).children
      ∧ (wait_pid pid true children).yielded = (wait_pid pid false children).yielded := by
  have hw := waitLoop_true_written pid children 0 ⟨.NotExist, 0, 0, none⟩
  have hind := waitLoop_indep pid true false children 0 ⟨.NotExist, 0, 0, none⟩
    ⟨.NotExist, 0, 0, none⟩ rfl rfl rfl
  obtain ⟨hs, hi, ha⟩ := hind
  simp only [wait_pid]
  rw [hs, hi, ha, hw]
  split
  · exact ⟨rfl, rfl, rfl, rfl⟩
  · exact ⟨rfl, rfl, rfl, rfl⟩

/-- C4: for a parent whose only child has exited with code k, wait(-1, p)
with a non-null pointer returns the child id, writes the i32 value k << 8
through the pointer (equal to k * 256 for every ordinary exit code
0 ≤ k < 2^23), removes the child from the children list, and a subsequent
wait with no children left returns NotExist. -/
theorem wait_pid_reaps_only_exited_child (cid : Nat) (k : Int)
    (hk : -(2 : Int) ^ 31 ≤ k ∧ k < 2 ^ 31) :
    wait_pid (-1) false [⟨cid, .Exited, k, some k⟩] =
        ⟨.ok cid, [], some (i32Shl8 k), false⟩
      ∧ wait_pid (-1) false [] = ⟨.error .NotExist, [], none, false⟩
      ∧ (0 ≤ k → k < 2 ^ 23 → i32Shl8 k = k * 256) := by
  refine ⟨?_, by decide, ?_⟩
  · simp [wait_pid, waitLoop, List.eraseIdx]
  · intro h0 h23
    have hk32 : k < (2 : Int) ^ 32 := by norm_num at h23 ⊢; omega
    have hmod : k % (2 : Int) ^ 32 = k := Int.emod_eq_of_lt h0 hk32
    simp only [i32Shl8, hmod]
    have htn : ((k.toNat : Int)) = k := Int.toNat_of_nonneg h0
    have hsh : k.toNat <<< 8 = k.toNat * 256 := Nat.shiftLeft_eq k.toNat 8
    have hlt : k.toNat * 256 < 2 ^ 31 := by
      have : k.toNat < 2 ^ 23 := by omega
      norm_num at this ⊢
      omega
    have hmod2 : k.toNat * 256 % 2 ^ 32 = k.toNat * 256 := by
      apply Nat.mod_eq_of_lt
      norm_num at hlt ⊢
      omega
    rw [hsh, hmod2, if_pos hlt]
    push_cast
    omega

/-- The fuel-bounded trailing-zeros scan finds the lowest set bit when the
fuel bounds the bit width of the (nonzero) input. -/
lemma ctzFuel_spec :
    ∀ (fuel n : Nat), n ≠ 0 → n < 2 ^ fuel →
      n.testBit (ctzFuel fuel n) = true ∧ ∀ j < ctzFuel fuel n, n.testBit j = false := by
  intro fuel
  induction fuel with
  | zero =>
    intro n h0 hlt
    omega
  | succ fuel ih =>
    intro n h0 hlt
    simp only [ctzFuel, if_neg h0]
    by_cases hodd : n % 2 = 1
    · simp only [if_pos hodd]
      refine ⟨by simp [Nat.testBit_zero, hodd], by omega⟩
    · simp only [if_neg hodd]
      have hhalf0 : n / 2 ≠ 0 := by omega
      have hhalflt : n / 2 < 2 ^ fuel := by
        have : 2 ^ (fuel + 1) = 2 ^ fuel * 2 := by ring
        omega
      obtain ⟨iha, ihb⟩ := ih (n / 2) hhalf0 hhalflt
      constructor
      · rw [Nat.testBit_add_one]
        exact iha
      · intro j hj
        match j with
        | 0 => simp [Nat.testBit_zero]; omega
        | j + 1 =>
          rw [Nat.testBit_add_one]
          exact ihb j (by omega)

/-- The bit found by ctz is set. -/
lemma ctz_testBit (n : Nat) (h0 : n ≠ 0) (h64 : n < 2 ^ 64) :
    n.testBit (ctz n) = true :=
  (ctzFuel_spec 64 n h0 h64).1

/-- Every bit below the one found by ctz is clear. -/
lemma ctz_minimal (n : Nat) (h0 : n ≠ 0) (h64 : n < 2 ^ 64)
    {j : Nat} (hj : j < ctz n) : n.testBit j = false :=
  (ctzFuel_spec 64 n h0 h64).2 j hj

/-- The trailing-zeros index of a nonzero 64-bit word is below 64. -/
lemma ctz_lt_64 (n : Nat) (h0 : n ≠ 0) (h64 : n < 2 ^ 64) : ctz n < 64 := by
  have hge : 2 ^ ctz n ≤ n := Nat.testBit_implies_ge (ctz_testBit n h0 h64)
  by_contra hc
  have : (2 : Nat) ^ 64 ≤ 2 ^ ctz n := Nat.pow_le_pow_right (by omega) (by omega)
  omega

/-- A word ANDed with a single-bit mask is nonzero exactly when that bit is
set. -/
lemma and_two_pow_ne (x k : Nat) : x &&& 2 ^ k ≠ 0 ↔ x.testBit k = true := by
  constructor
  · intro h
    by_contra hb
    apply h
    apply Nat.eq_of_testBit_eq
    intro i
    rw [Nat.testBit_and, Nat.zero_testBit]
    by_cases hik : k = i
    · subst hik
      simp [Bool.eq_false_iff.mpr hb]
    · simp [Nat.testBit_two_pow_of_ne hik]
  · intro h hz
    have := congrArg (fun m => m.testBit k) hz
    simp only [Nat.testBit_and, Nat.zero_testBit, Nat.testBit_two_pow_self] at this
    rw [h] at this
    simp at this

/-- Bits of a word above its width are clear. -/
lemma testBit_ge_64 (x i : Nat) (hx : x < 2 ^ 64) (hi : 64 ≤ i) :
    x.testBit i = false := by
  apply Nat.testBit_lt_two_pow
  calc x < 2 ^ 64 := hx
    _ ≤ 2 ^ i := Nat.pow_le_pow_right (by omega) hi

/-- Clearing one bit with the 64-bit complement mask, bitwise view: bit k
is forced clear, all other bits of a 64-bit word are kept. -/
lemma and_not_bit (x k i : Nat) (hx : x < 2 ^ 64) (hk : k < 64) :
    (x &&& (UMAX ^^^ (1 <<< k))).testBit i =
      (x.testBit i && ! decide (i = k)) := by
  have h1 : (1 : Nat) <<< k = 2 ^ k := by
    rw [Nat.shiftLeft_eq, Nat.one_mul]
  rw [h1, Nat.testBit_and, UMAX, Nat.testBit_xor, Nat.testBit_two_pow_sub_one,
    Nat.testBit_two_pow]
  by_cases hi : i < 64
  · by_cases hik : i = k
    · subst hik
      simp [hi]
    · have hki : ¬ (k = i) := fun hkk => hik hkk.symm
      simp [hi, hik, hki]
  · rw [testBit_ge_64 x i hx (by omega)]
    simp [hi]

/-- C5 counterexample: the claim requires dequeue to report a signal
whenever the 128-bit intersection is nonempty, over both words. A set and
mask meeting only in the second word have nonempty intersection, yet
dequeue returns None: the source intersects only bits[0]. -/
theorem sigset_dequeue_ignores_second_word :
    ((SigSet.mk 0 1).bits0 &&& (SigSet.mk 0 1).bits0 = 0
      ∧ (SigSet.mk 0 1).bits1 &&& (SigSet.mk 0 1).bits1 ≠ 0)
      ∧ (SigSet.dequeue ⟨0, 1⟩ ⟨0, 1⟩).1 = none := by
  decide

/-- C5 amended: dequeue decides emptiness on the first words only: it
returns None iff bits0 of the set and of the mask have empty intersection;
otherwise it returns sig = 1 + the lowest set bit index of that first-word
intersection and clears exactly that bit of the set (second word and all
other bits untouched). -/
theorem sigset_dequeue_first_word (S M : SigSet) (hS : S.bits0 < 2 ^ 64) :
    ((SigSet.dequeue S M).1 = none ↔ S.bits0 &&& M.bits0 = 0)
      ∧ (∀ sig T, SigSet.dequeue S M = (some sig, T) →
          1 ≤ sig
            ∧ (S.bits0 &&& M.bits0).testBit (sig - 1) = true
            ∧ (∀ t, (S.bits0 &&& M.bits0).testBit t = true → sig - 1 ≤ t)
            ∧ (∀ i, T.bits0.testBit i = true ↔ (S.bits0.testBit i = true ∧ i ≠ sig - 1))
            ∧ T.bits1 = S.bits1) := by
  by_cases hb : S.bits0 &&& M.bits0 = 0
  · constructor
    · simp [SigSet.dequeue, hb]
    · intro sig T h
      simp [SigSet.dequeue, hb] at h
  · have hblt : S.bits0 &&& M.bits0 < 2 ^ 64 :=
      Nat.lt_of_le_of_lt Nat.and_le_left hS
    have hc64 : ctz (S.bits0 &&& M.bits0) < 64 := ctz_lt_64 _ hb hblt
    constructor
    · simp [SigSet.dequeue, hb]
    · intro sig T h
      simp only [SigSet.dequeue, if_neg hb] at h
      obtain ⟨hsig, hT⟩ := Prod.mk.injEq .. ▸ h
      have hsig2 : sig = ctz (S.bits0 &&& M.bits0) + 1 := by
        exact (Option.some.injEq .. ▸ hsig).symm
      subst hsig2
      subst hT
      refine ⟨by omega, ?_, ?_, ?_, rfl⟩
      · simpa using ctz_testBit _ hb hblt
      · intro t ht
        by_contra hc
        have : (S.bits0 &&& M.bits0).testBit t = false :=
          ctz_minimal _ hb hblt (by omega)
        rw [ht] at this
        cases this
      · intro i
        rw [and_not_bit S.bits0 (ctz (S.bits0 &&& M.bits0)) i hS hc64]
        simp only [Nat.add_sub_cancel]
        by_cases hik : i = ctz (S.bits0 &&& M.bits0)
        · simp [hik]
        · simp [hik]

/-- C5 amended witness: the S5 scenario, set {2, 4}, mask 0xFF, dequeues
signal 2 and leaves {4}. -/
theorem sigset_dequeue_first_word_witness :
    ((10 : Nat) < 2 ^ 64)
      ∧ (((SigSet.dequeue ⟨10, 0⟩ ⟨255, 0⟩).1 = none ↔ (10 : Nat) &&& 255 = 0)
        ∧ (∀ sig T, SigSet.dequeue ⟨10, 0⟩ ⟨255, 0⟩ = (some sig, T) →
            1 ≤ sig
              ∧ ((10 : Nat) &&& 255).testBit (sig - 1) = true
              ∧ (∀ t, ((10 : Nat) &&& 255).testBit t = true → sig - 1 ≤ t)
              ∧ (∀ i, T.bits0.testBit i = true ↔
                  ((10 : Nat).testBit i = true ∧ i ≠ sig - 1))
              ∧ T.bits1 = 0))
      ∧ SigSet.dequeue ⟨10, 0⟩ ⟨255, 0⟩ = (some 2, ⟨8, 0⟩) := by
  refine ⟨by norm_num, sigset_dequeue_first_word ⟨10, 0⟩ ⟨255, 0⟩ (by norm_num), by decide⟩

/-- C6 counterexample: the claim requires add(s) then remove(s) to leave S
unchanged even when S already contains s. For S = {1} and s = 1, add is a
no-op (the bit is already set, it returns false) and remove then clears the
bit, so the pair changes S. -/
theorem sigset_add_remove_changes_member :
    SigSet.has ⟨1, 0⟩ 1 = true
      ∧ (SigSet.remove (SigSet.add ⟨1, 0⟩ 1).1 1).1 ≠ ⟨1, 0⟩ := by
  decide

/-- C6 amended: for every signal s in 1..=31 and every 64-bit SigSet S,
after add(s) the set has s; after remove(s) it does not; add(s) then
remove(s) restores S when S did not already contain s (when it did, add is
a no-op and the pair removes s); and add returns whether the bit went from
0 to 1. -/
theorem sigset_add_remove_has_laws (S : SigSet) (s : Nat)
    (hs : 1 ≤ s ∧ s < 32) (hS : S.bits0 < 2 ^ 64) :
    SigSet.has (SigSet.add S s).1 s = true
      ∧ SigSet.has (SigSet.remove S s).1 s = false
      ∧ (SigSet.has S s = false → (SigSet.remove (SigSet.add S s).1 s).1 = S)
      ∧ (SigSet.add S s).2 = ! SigSet.has S s := by
  have hp : (1 : Nat) <<< (s - 1) = 2 ^ (s - 1) := by
    rw [Nat.shiftLeft_eq, Nat.one_mul]
  have hk64 : s - 1 < 64 := by omega
  have hhasGen : ∀ x : Nat, SigSet.has ⟨x, S.bits1⟩ s = decide (x.testBit (s - 1) = true) := by
    intro x
    simp only [SigSet.has, hp]
    rw [decide_eq_decide]
    constructor
    · rintro ⟨-, hne⟩
      exact (and_two_pow_ne _ _).mp hne
    · intro hb
      exact ⟨hs, (and_two_pow_ne _ _).mpr hb⟩
  have hhas : SigSet.has S s = decide (S.bits0.testBit (s - 1) = true) := hhasGen S.bits0
  by_cases hbit : S.bits0.testBit (s - 1) = true
  · -- the bit is already set: add is a no-op returning false
    have hnz : S.bits0 &&& (1 <<< (s - 1)) ≠ 0 := by
      rw [hp]
      exact (and_two_pow_ne S.bits0 (s - 1)).mpr hbit
    have hadd : SigSet.add S s = (S, false) := by
      simp only [SigSet.add, if_neg (by omega : ¬ ¬ (1 ≤ s ∧ s < 32))]
      simp [hnz]
    refine ⟨?_, ?_, ?_, ?_⟩
    · rw [hadd]
      simp [hhas, hbit]
    · -- remove clears the bit, so has becomes false
      have hrem : (SigSet.remove S s).1 =
          ⟨S.bits0 &&& (UMAX ^^^ (1 <<< (s - 1))), S.bits1⟩ := by
        simp only [SigSet.remove, if_neg (by omega : ¬ ¬ (1 ≤ s ∧ s < 32))]
        simp [hnz]
      have hclear : (S.bits0 &&& (UMAX ^^^ (1 <<< (s - 1)))).testBit (s - 1) = false := by
        rw [and_not_bit S.bits0 (s - 1) (s - 1) hS hk64]
        simp
      rw [hrem, hhasGen (S.bits0 &&& (UMAX ^^^ (1 <<< (s - 1))))]
      simp [hclear]
    · intro hfalse
      rw [hhas] at hfalse
      simp [hbit] at hfalse
    · rw [hadd, hhas]
      simp [hbit]
  · -- the bit is clear: add sets it and returns true
    have hz : ¬ (S.bits0 &&& (1 <<< (s - 1)) ≠ 0) := by
      rw [hp]
      intro hneq
      exact hbit ((and_two_pow_ne S.bits0 (s - 1)).mp hneq)
    have hadd : SigSet.add S s = (⟨S.bits0 ||| (1 <<< (s - 1)), S.bits1⟩, true) := by
      simp only [SigSet.add, if_neg (by omega : ¬ ¬ (1 ≤ s ∧ s < 32))]
      simp [hz]
    have hsetbit : (S.bits0 ||| (1 <<< (s - 1))).testBit (s - 1) = true := by
      rw [hp, Nat.testBit_or, Nat.testBit_two_pow_self]
      simp
    refine ⟨?_, ?_, ?_, ?_⟩
    · rw [hadd]
      rw [hhasGen (S.bits0 ||| (1 <<< (s - 1)))]
      simp [hsetbit]
    · -- removing from S: either a no-op (bit clear) or clears the bit
      by_cases hz2 : S.bits0 &&& (1 <<< (s - 1)) = 0
      · have hrem : (SigSet.remove S s).1 = S := by
          simp only [SigSet.remove, if_neg (by omega : ¬ ¬ (1 ≤ s ∧ s < 32))]
          simp [hz2]
        rw [hrem, hhas]
        simp [hbit]
      · exact absurd hz2 (by simpa using hz)
    · intro _
      have hnz2 : (S.bits0 ||| (1 <<< (s - 1))) &&& (1 <<< (s - 1)) ≠ 0 := by
        rw [hp]
        exact (and_two_pow_ne _ (s - 1)).mpr (hp ▸ hsetbit)
      have hrem : (SigSet.remove (SigSet.add S s).1 s).1 =
          ⟨(S.bits0 ||| (1 <<< (s - 1))) &&& (UMAX ^^^ (1 <<< (s - 1))), S.bits1⟩ := by
        rw [hadd]
        simp only [SigSet.remove, if_neg (by omega : ¬ ¬ (1 ≤ s ∧ s < 32))]
        simp [hnz2]
      rw [hrem]
      have hb0 : (S.bits0 ||| (1 <<< (s - 1))) &&& (UMAX ^^^ (1 <<< (s - 1))) = S.bits0 := by
        apply Nat.eq_of_testBit_eq
        intro i
        have hor : S.bits0 ||| (1 <<< (s - 1)) < 2 ^ 64 := by
          rw [hp]
          exact Nat.or_lt_two_pow hS
            (Nat.pow_lt_pow_right (by omega) hk64)
        rw [and_not_bit _ (s - 1) i hor hk64, hp, Nat.testBit_or, Nat.testBit_two_pow]
        by_cases hik : i = s - 1
        · subst hik
          simp [Bool.eq_false_iff.mpr hbit]
        · have hki : ¬ (s - 1 = i) := fun hkk => hik hkk.symm
          simp [hik, hki]
      rw [hb0]
    · rw [hadd, hhas]
      simp [Bool.eq_false_iff.mpr hbit]

/-- C6 amended witness: S = {3} (bits0 = 4), s = 2. -/
theorem sigset_add_remove_has_laws_witness :
    ((1 ≤ 2 ∧ 2 < 32) ∧ (4 : Nat) < 2 ^ 64)
      ∧ (SigSet.has (SigSet.add ⟨4, 0⟩ 2).1 2 = true
        ∧ SigSet.has (SigSet.remove ⟨4, 0⟩ 2).1 2 = false
        ∧ (SigSet.has ⟨4, 0⟩ 2 = false → (SigSet.remove (SigSet.add ⟨4, 0⟩ 2).1 2).1 = ⟨4, 0⟩)
        ∧ (SigSet.add ⟨4, 0⟩ 2).2 = ! SigSet.has ⟨4, 0⟩ 2)
      ∧ (SigSet.add ⟨4, 0⟩ 2).1 = ⟨6, 0⟩ := by
  refine ⟨⟨⟨by omega, by omega⟩, by norm_num⟩, ?_, by decide⟩
  exact sigset_add_remove_has_laws ⟨4, 0⟩ 2 ⟨by omega, by omega⟩ (by norm_num)

/-- The fill loop of sys_getdents64 emits packed entries: starting at the
given offset, each entry record carries d_reclen = FIXED_SIZE + name length
+ 1 (given that this fits a u16), consecutive entries advance by exactly
d_reclen, the final offset is the initial offset plus the sum of reclens,
every emitted entry lies entirely below len, and the final offset stays
below len whenever the initial one does. -/
lemma getdentsLoop_spec (len : Nat) :
    ∀ (dir : List RawDirEntry) (off : Nat),
      (∀ e ∈ dir, FIXED_SIZE + e.name.length + 1 < 2 ^ 16) →
      packedFrom off (getdentsLoop len dir off).1
        ∧ (getdentsLoop len dir off).2.1 = off + sumReclen (getdentsLoop len dir off).1
        ∧ (∀ em ∈ (getdentsLoop len dir off).1,
            em.ent.d_reclen = FIXED_SIZE + em.name.length + 1
              ∧ em.off + em.ent.d_reclen ≤ len)
        ∧ (off ≤ len → (getdentsLoop len dir off).2.1 ≤ len) := by
  intro dir
  induction dir with
  | nil =>
    intro off hnames
    refine ⟨trivial, by simp [getdentsLoop, sumReclen], by simp [getdentsLoop], fun h => by simpa [getdentsLoop] using h⟩
  | cons e rest ih =>
    intro off hnames
    have hname : FIXED_SIZE + e.name.length + 1 < 2 ^ 16 :=
      hnames e (List.mem_cons_self e rest)
    have hrest : ∀ x ∈ rest, FIXED_SIZE + x.name.length + 1 < 2 ^ 16 :=
      fun x hx => hnames x (List.mem_cons_of_mem e hx)
    by_cases h1 : off + FIXED_SIZE + 2 > len
    · simp only [getdentsLoop, if_pos h1]
      exact ⟨trivial, by simp [sumReclen], by simp, fun h => h⟩
    · by_cases h2 : off + (FIXED_SIZE + e.name.length + 1) > len
      · simp only [getdentsLoop, if_neg h1, if_pos h2]
        exact ⟨trivial, by simp [sumReclen], by simp, fun h => h⟩
      · have hrec : (FIXED_SIZE + e.name.length + 1) % 2 ^ 16 =
            FIXED_SIZE + e.name.length + 1 := Nat.mod_eq_of_lt hname
        obtain ⟨iha, ihb, ihc, ihd⟩ := ih (off + (FIXED_SIZE + e.name.length + 1)) hrest
        simp only [getdentsLoop, if_neg h1, if_neg h2]
        refine ⟨⟨rfl, ?_⟩, ?_, ?_, ?_⟩
        · show packedFrom (off + ((FIXED_SIZE + e.name.length + 1) % 2 ^ 16))
            (getdentsLoop len rest (off + (FIXED_SIZE + e.name.length + 1))).1
          rw [hrec]
          exact iha
        · simp only [sumReclen, List.map_cons, List.sum_cons]
          rw [ihb]
          simp [sumReclen, hrec]
          omega
        · intro em hem
          rcases List.mem_cons.mp hem with hself | htail
          · subst hself
            refine ⟨?_, ?_⟩
            · show (FIXED_SIZE + e.name.length + 1) % 2 ^ 16 =
                FIXED_SIZE + e.name.length + 1
              exact hrec
            · show off + (FIXED_SIZE + e.name.length + 1) % 2 ^ 16 ≤ len
              rw [hrec]
              omega
          · exact ihc em htail
        · intro _
          exact ihd (by omega)

/-- Every emitted entry gets a terminating NUL byte right after its name. -/
lemma entryWrites_nul (em : Emitted) :
    (em.off + FIXED_SIZE + em.name.length, 0) ∈ entryWrites em := by
  simp [entryWrites]

/-- C8: with a valid buffer pointer, sys_getdents64 fails EINVAL exactly
when len is below the fixed header size; otherwise it emits entries packed
consecutively from offset 0, each with d_reclen = FIXED_SIZE + name length
+ 1 and a NUL byte written right after the name, and it returns the sum of
the emitted reclens. The u16 d_reclen hypothesis requires each name to fit
the field, which every filesystem name does. -/
theorem sys_getdents64_packing (len : Nat) (dir : List RawDirEntry)
    (hnames : ∀ e ∈ dir, FIXED_SIZE + e.name.length + 1 < 2 ^ 16) :
    (∀ fdOk, len < FIXED_SIZE → sys_getdents64 none fdOk len dir = .error .EINVAL)
      ∧ (FIXED_SIZE ≤ len → ∃ ems ret rem,
          sys_getdents64 none true len dir = .ok (ems, ret, rem)
            ∧ packedFrom 0 ems
            ∧ (∀ em ∈ ems,
                em.ent.d_reclen = FIXED_SIZE + em.name.length + 1
                  ∧ (em.off + FIXED_SIZE + em.name.length, 0) ∈ entryWrites em)
            ∧ ret = sumReclen ems) := by
  constructor
  · intro fdOk hlen
    simp [sys_getdents64, hlen]
  · intro hlen
    have hnot : ¬ len < FIXED_SIZE := by omega
    obtain ⟨ha, hb, hc, _⟩ := getdentsLoop_spec len dir 0 hnames
    refine ⟨(getdentsLoop len dir 0).1, (getdentsLoop len dir 0).2.1,
      (getdentsLoop len dir 0).2.2, ?_, ha, ?_, by simpa using hb⟩
    · simp [sys_getdents64, hnot]
    · intro em hem
      exact ⟨(hc em hem).1, entryWrites_nul em⟩

/-- C8 witness: the S3 scenario, directory entries named a and bb, buffer
64 bytes: two packed entries of reclen 21 and 22, return value 43. -/
theorem sys_getdents64_packing_witness :
    (∀ e ∈ [RawDirEntry.mk [97] 4, RawDirEntry.mk [98, 98] 8],
        FIXED_SIZE + e.name.length + 1 < 2 ^ 16)
      ∧ ((∀ fdOk, 64 < FIXED_SIZE →
            sys_getdents64 none fdOk 64 [⟨[97], 4⟩, ⟨[98, 98], 8⟩] = .error .EINVAL)
        ∧ (FIXED_SIZE ≤ 64 → ∃ ems ret rem,
            sys_getdents64 none true 64 [⟨[97], 4⟩, ⟨[98, 98], 8⟩] = .ok (ems, ret, rem)
              ∧ packedFrom 0 ems
              ∧ (∀ em ∈ ems,
                  em.ent.d_reclen = FIXED_SIZE + em.name.length + 1
                    ∧ (em.off + FIXED_SIZE + em.name.length, 0) ∈ entryWrites em)
              ∧ ret = sumReclen ems))
      ∧ sys_getdents64 none true 64 [⟨[97], 4⟩, ⟨[98, 98], 8⟩] =
          .ok ([⟨0, ⟨1, 21, 21, 4⟩, [97]⟩, ⟨21, ⟨1, 43, 22, 8⟩, [98, 98]⟩], 43, []) := by
  refine ⟨by decide, ?_, by decide⟩
  exact sys_getdents64_packing 64 [⟨[97], 4⟩, ⟨[98, 98], 8⟩] (by decide)

/-- C4 witness: the S1 scenario, exit code 7, status word 1792. -/
theorem wait_pid_reaps_witness :
    (-(2 : Int) ^ 31 ≤ 7 ∧ (7 : Int) < 2 ^ 31)
      ∧ (wait_pid (-1) false [⟨9, .Exited, 7, some 7⟩] =
            ⟨.ok 9, [], some (i32Shl8 7), false⟩
          ∧ wait_pid (-1) false [] = ⟨.error .NotExist, [], none, false⟩
          ∧ ((0 : Int) ≤ 7 → (7 : Int) < 2 ^ 23 → i32Shl8 7 = 7 * 256))
      ∧ i32Shl8 7 = 1792 := by
  refine ⟨⟨by norm_num, by norm_num⟩, ?_, by decide⟩
  exact wait_pid_reaps_only_exited_child 9 7 ⟨by norm_num, by norm_num⟩
